import Mathlib

/-
  Verification of the `CosineAnnealingWarmupRestarts` learning-rate scheduler
  from `bkh_pytorch_utils/py/utils.py`.

  Modelling conventions:
  * Python floats are modelled by real numbers; step counters are integers.
  * `int(x)` (truncation toward zero) is modelled by `pyInt`.
  * `math.log(x, b)` is `Real.log x / Real.log b`; the Python calls raise
    (ValueError / ZeroDivisionError) exactly when `x ≤ 0`, `b ≤ 0` or `b = 1`,
    so the explicit-step branch guards on those conditions and returns `none`
    when Python would raise.
  * The constructor runs the assertion `warmup_steps < first_cycle_steps`;
    `torch.optim.lr_scheduler._LRScheduler.__init__` then performs one initial
    `self.step()` call (standard PyTorch behaviour), after which `init_lr`
    resets every tracked rate to `min_lr`.
  * `optimizer.param_groups` is modelled as the list of its `lr` entries.
-/

set_option maxHeartbeats 1000000

open Classical

/-- Truncation toward zero: the semantics of the Python `int()` cast on a real value. -/
noncomputable def pyInt (x : ℝ) : ℤ := if 0 ≤ x then ⌊x⌋ else ⌈x⌉

/-- State of a `CosineAnnealingWarmupRestarts` object.  The fields mirror, in order,
the attributes assigned in `__init__`; `base_lrs` is the list built by `init_lr`
(one entry per optimizer parameter group) and `lrs` models the `lr` entry of each
`optimizer.param_groups` record. -/
@[ext]
structure CosineAnnealingWarmupRestarts where
  first_cycle_steps : ℕ
  cycle_mult : ℝ
  base_max_lr : ℝ
  max_lr : ℝ
  min_lr : ℝ
  warmup_steps : ℕ
  gamma : ℝ
  cur_cycle_steps : ℝ
  cycle : ℤ
  step_in_cycle : ℝ
  last_epoch : ℤ
  base_lrs : List ℝ
  lrs : List ℝ

namespace CosineAnnealingWarmupRestarts

/-- The `get_lr` method: four-way branch on the degenerate-cycle guard, the
not-yet-started marker `-1`, the linear warmup phase and the cosine phase. -/
noncomputable def get_lr (s : CosineAnnealingWarmupRestarts) : List ℝ :=
  if 0 < s.cycle ∧ s.cycle_mult = 0 then s.base_lrs
  else if s.step_in_cycle = -1 then s.base_lrs
  else if s.step_in_cycle < (s.warmup_steps : ℝ) then
    s.base_lrs.map (fun base_lr =>
      (s.max_lr - base_lr) * s.step_in_cycle / (s.warmup_steps : ℝ) + base_lr)
  else
    s.base_lrs.map (fun base_lr =>
      base_lr + (s.max_lr - base_lr) *
        (1 + Real.cos (Real.pi * (s.step_in_cycle - (s.warmup_steps : ℝ)) /
          (s.cur_cycle_steps - (s.warmup_steps : ℝ)))) / 2)

/-- Shared tail of `step`: recompute `max_lr = base_max_lr * gamma ** cycle`,
set `last_epoch = math.floor(epoch)` (the argument is already an integer here),
and write the freshly computed `get_lr` values into every parameter group. -/
noncomputable def apply_tail (s : CosineAnnealingWarmupRestarts) (epoch : ℤ) :
    CosineAnnealingWarmupRestarts :=
  let s2 : CosineAnnealingWarmupRestarts :=
    { s with max_lr := s.base_max_lr * s.gamma ^ s.cycle, last_epoch := epoch }
  { s2 with lrs := get_lr s2 }

/-- The `epoch is None` branch of `step`: advance by one, restarting (and growing
the cycle with the `int()`-truncated recurrence) when the cycle is exhausted. -/
noncomputable def step_impl (s : CosineAnnealingWarmupRestarts) :
    CosineAnnealingWarmupRestarts :=
  if s.cur_cycle_steps ≤ s.step_in_cycle + 1 then
    apply_tail
      { s with
        cycle := s.cycle + 1
        step_in_cycle := s.step_in_cycle + 1 - s.cur_cycle_steps
        cur_cycle_steps :=
          ((pyInt ((s.cur_cycle_steps - (s.warmup_steps : ℝ)) * s.cycle_mult) +
            (s.warmup_steps : ℤ) : ℤ) : ℝ) }
      (s.last_epoch + 1)
  else
    apply_tail { s with step_in_cycle := s.step_in_cycle + 1 } (s.last_epoch + 1)

/-- The explicit branch of `step` (caller-supplied absolute step `epoch`).
Returns `none` exactly when the Python code raises inside `math.log`. -/
noncomputable def step_epoch (s : CosineAnnealingWarmupRestarts) (epoch : ℕ) :
    Option CosineAnnealingWarmupRestarts :=
  if s.first_cycle_steps ≤ epoch then
    if s.cycle_mult = 1 then
      some (apply_tail
        { s with
          step_in_cycle := ((epoch % s.first_cycle_steps : ℕ) : ℝ)
          cycle := ((epoch / s.first_cycle_steps : ℕ) : ℤ) }
        (epoch : ℤ))
    else
      if 0 < (epoch : ℝ) / (s.first_cycle_steps : ℝ) * (s.cycle_mult - 1) + 1 ∧
          0 < s.cycle_mult then
        some (apply_tail
          { s with
            cycle :=
              pyInt (Real.log ((epoch : ℝ) / (s.first_cycle_steps : ℝ) *
                (s.cycle_mult - 1) + 1) / Real.log s.cycle_mult)
            step_in_cycle :=
              (epoch : ℝ) -
                ((pyInt ((s.first_cycle_steps : ℝ) *
                  (s.cycle_mult ^
                    (pyInt (Real.log ((epoch : ℝ) / (s.first_cycle_steps : ℝ) *
                      (s.cycle_mult - 1) + 1) / Real.log s.cycle_mult)) - 1) /
                  (s.cycle_mult - 1)) : ℤ) : ℝ)
            cur_cycle_steps :=
              (s.first_cycle_steps : ℝ) * s.cycle_mult ^
                (pyInt (Real.log ((epoch : ℝ) / (s.first_cycle_steps : ℝ) *
                  (s.cycle_mult - 1) + 1) / Real.log s.cycle_mult)) }
          (epoch : ℤ))
      else none
  else
    some (apply_tail
      { s with
        cur_cycle_steps := (s.first_cycle_steps : ℝ)
        step_in_cycle := (epoch : ℝ) }
      (epoch : ℤ))

/-- The `init_lr` method: set every parameter group's rate to `min_lr` and rebuild
`base_lrs` as the matching list of `min_lr` values. -/
def init_lr (s : CosineAnnealingWarmupRestarts) : CosineAnnealingWarmupRestarts :=
  { s with
    base_lrs := s.lrs.map (fun _ => s.min_lr)
    lrs := s.lrs.map (fun _ => s.min_lr) }

/-- The constructor `__init__` with the default `last_epoch = -1`: the assertion
`warmup_steps < first_cycle_steps`, the attribute assignments, the superclass
call (which performs one initial `step()`, per PyTorch `_LRScheduler.__init__`),
then `init_lr`.  `optimizer_lrs` is the list of `lr` values of the optimizer's
parameter groups at construction time. -/
noncomputable def construct (first_cycle_steps : ℕ) (cycle_mult max_lr min_lr : ℝ)
    (warmup_steps : ℕ) (gamma : ℝ) (optimizer_lrs : List ℝ) :
    Option CosineAnnealingWarmupRestarts :=
  if warmup_steps < first_cycle_steps then
    some (init_lr (step_impl
      { first_cycle_steps := first_cycle_steps
        cycle_mult := cycle_mult
        base_max_lr := max_lr
        max_lr := max_lr
        min_lr := min_lr
        warmup_steps := warmup_steps
        gamma := gamma
        cur_cycle_steps := (first_cycle_steps : ℝ)
        cycle := 0
        step_in_cycle := (-1 : ℝ)
        last_epoch := -1
        base_lrs := optimizer_lrs
        lrs := optimizer_lrs }))
  else none

/-- The fully evaluated post-construction state: the result of `construct`
whenever the assertion passes. -/
def freshState (first_cycle_steps : ℕ) (cycle_mult max_lr min_lr : ℝ)
    (warmup_steps : ℕ) (gamma : ℝ) (optimizer_lrs : List ℝ) :
    CosineAnnealingWarmupRestarts :=
  { first_cycle_steps := first_cycle_steps
    cycle_mult := cycle_mult
    base_max_lr := max_lr
    max_lr := max_lr
    min_lr := min_lr
    warmup_steps := warmup_steps
    gamma := gamma
    cur_cycle_steps := (first_cycle_steps : ℝ)
    cycle := 0
    step_in_cycle := 0
    last_epoch := 0
    base_lrs := List.replicate optimizer_lrs.length min_lr
    lrs := List.replicate optimizer_lrs.length min_lr }

/-- Modelled from the spec's words (section 4.1, rate query): the per-group rate,
written as linear interpolation with fraction `position_in_cycle / warmup_length`
during warmup and as the cosine-decay closed form afterwards.  Used only to
compare against the source-derived `get_lr`. -/
noncomputable def spec_rate (s : CosineAnnealingWarmupRestarts) : ℝ :=
  if s.step_in_cycle < (s.warmup_steps : ℝ) then
    s.min_lr + (s.max_lr - s.min_lr) * (s.step_in_cycle / (s.warmup_steps : ℝ))
  else
    s.min_lr + (s.max_lr - s.min_lr) *
      (1 + Real.cos (Real.pi * (s.step_in_cycle - (s.warmup_steps : ℝ)) /
        (s.cur_cycle_steps - (s.warmup_steps : ℝ)))) / 2

/-- The state makes `get_lr` evaluate a division with denominator zero: either the
warmup branch with `warmup_steps = 0`, or the cosine branch with
`cur_cycle_steps - warmup_steps = 0`. -/
def get_lr_div_zero (s : CosineAnnealingWarmupRestarts) : Prop :=
  ¬(0 < s.cycle ∧ s.cycle_mult = 0) ∧ s.step_in_cycle ≠ -1 ∧
    ((s.step_in_cycle < (s.warmup_steps : ℝ) ∧ (s.warmup_steps : ℝ) = 0) ∨
      (¬s.step_in_cycle < (s.warmup_steps : ℝ) ∧
        s.cur_cycle_steps - (s.warmup_steps : ℝ) = 0))

/-- States reachable from `s0` by implicit advances (`step()` with no argument) only. -/
inductive ReachesImp (s0 : CosineAnnealingWarmupRestarts) :
    CosineAnnealingWarmupRestarts → Prop
  | refl : ReachesImp s0 s0
  | stepI {s : CosineAnnealingWarmupRestarts} :
      ReachesImp s0 s → ReachesImp s0 (step_impl s)

/-- States reachable from `s0` by any sequence of implicit or explicit advances. -/
inductive Reaches (s0 : CosineAnnealingWarmupRestarts) :
    CosineAnnealingWarmupRestarts → Prop
  | refl : Reaches s0 s0
  | stepI {s : CosineAnnealingWarmupRestarts} :
      Reaches s0 s → Reaches s0 (step_impl s)
  | stepE {s s' : CosineAnnealingWarmupRestarts} {t : ℕ} :
      Reaches s0 s → step_epoch s t = some s' → Reaches s0 s'

end CosineAnnealingWarmupRestarts

namespace CosineAnnealingWarmupRestarts

theorem pyInt_of_nonneg {x : ℝ} (h : 0 ≤ x) : pyInt x = ⌊x⌋ := if_pos h

theorem pyInt_intCast (k : ℤ) : pyInt (k : ℝ) = k := by
  unfold pyInt
  split_ifs <;> simp

theorem pyInt_natCast (n : ℕ) : pyInt (n : ℝ) = (n : ℤ) := by
  have h := pyInt_intCast (n : ℤ)
  push_cast at h
  exact h

theorem list_map_const (l : List ℝ) (c : ℝ) :
    l.map (fun _ => c) = List.replicate l.length c := by
  induction l with
  | nil => simp
  | cons a t ih => simp [ih, List.replicate_succ]

theorem get_lr_length (s : CosineAnnealingWarmupRestarts) :
    (get_lr s).length = s.base_lrs.length := by
  unfold get_lr
  split_ifs <;> simp

@[simp] theorem apply_tail_first (s : CosineAnnealingWarmupRestarts) (e : ℤ) :
    (apply_tail s e).first_cycle_steps = s.first_cycle_steps := rfl

@[simp] theorem apply_tail_mult (s : CosineAnnealingWarmupRestarts) (e : ℤ) :
    (apply_tail s e).cycle_mult = s.cycle_mult := rfl

@[simp] theorem apply_tail_base_max (s : CosineAnnealingWarmupRestarts) (e : ℤ) :
    (apply_tail s e).base_max_lr = s.base_max_lr := rfl

@[simp] theorem apply_tail_min (s : CosineAnnealingWarmupRestarts) (e : ℤ) :
    (apply_tail s e).min_lr = s.min_lr := rfl

@[simp] theorem apply_tail_warmup (s : CosineAnnealingWarmupRestarts) (e : ℤ) :
    (apply_tail s e).warmup_steps = s.warmup_steps := rfl

@[simp] theorem apply_tail_gamma (s : CosineAnnealingWarmupRestarts) (e : ℤ) :
    (apply_tail s e).gamma = s.gamma := rfl

@[simp] theorem apply_tail_cur (s : CosineAnnealingWarmupRestarts) (e : ℤ) :
    (apply_tail s e).cur_cycle_steps = s.cur_cycle_steps := rfl

@[simp] theorem apply_tail_cycle (s : CosineAnnealingWarmupRestarts) (e : ℤ) :
    (apply_tail s e).cycle = s.cycle := rfl

@[simp] theorem apply_tail_sic (s : CosineAnnealingWarmupRestarts) (e : ℤ) :
    (apply_tail s e).step_in_cycle = s.step_in_cycle := rfl

@[simp] theorem apply_tail_base_lrs (s : CosineAnnealingWarmupRestarts) (e : ℤ) :
    (apply_tail s e).base_lrs = s.base_lrs := rfl

@[simp] theorem apply_tail_max (s : CosineAnnealingWarmupRestarts) (e : ℤ) :
    (apply_tail s e).max_lr = s.base_max_lr * s.gamma ^ s.cycle := rfl

@[simp] theorem apply_tail_last (s : CosineAnnealingWarmupRestarts) (e : ℤ) :
    (apply_tail s e).last_epoch = e := rfl

@[simp] theorem step_impl_first (s : CosineAnnealingWarmupRestarts) :
    (step_impl s).first_cycle_steps = s.first_cycle_steps := by
  unfold step_impl
  split_ifs <;> rfl

@[simp] theorem step_impl_mult (s : CosineAnnealingWarmupRestarts) :
    (step_impl s).cycle_mult = s.cycle_mult := by
  unfold step_impl
  split_ifs <;> rfl

@[simp] theorem step_impl_base_max (s : CosineAnnealingWarmupRestarts) :
    (step_impl s).base_max_lr = s.base_max_lr := by
  unfold step_impl
  split_ifs <;> rfl

@[simp] theorem step_impl_min (s : CosineAnnealingWarmupRestarts) :
    (step_impl s).min_lr = s.min_lr := by
  unfold step_impl
  split_ifs <;> rfl

@[simp] theorem step_impl_warmup (s : CosineAnnealingWarmupRestarts) :
    (step_impl s).warmup_steps = s.warmup_steps := by
  unfold step_impl
  split_ifs <;> rfl

@[simp] theorem step_impl_gamma (s : CosineAnnealingWarmupRestarts) :
    (step_impl s).gamma = s.gamma := by
  unfold step_impl
  split_ifs <;> rfl

@[simp] theorem step_impl_base_lrs (s : CosineAnnealingWarmupRestarts) :
    (step_impl s).base_lrs = s.base_lrs := by
  unfold step_impl
  split_ifs <;> rfl

@[simp] theorem step_impl_last (s : CosineAnnealingWarmupRestarts) :
    (step_impl s).last_epoch = s.last_epoch + 1 := by
  unfold step_impl
  split_ifs <;> rfl

theorem step_impl_of_lt {s : CosineAnnealingWarmupRestarts}
    (h : s.step_in_cycle + 1 < s.cur_cycle_steps) :
    (step_impl s).cycle = s.cycle ∧
    (step_impl s).step_in_cycle = s.step_in_cycle + 1 ∧
    (step_impl s).cur_cycle_steps = s.cur_cycle_steps ∧
    (step_impl s).max_lr = s.base_max_lr * s.gamma ^ s.cycle := by
  unfold step_impl
  rw [if_neg (not_le.mpr h)]
  exact ⟨rfl, rfl, rfl, rfl⟩

theorem step_impl_of_ge {s : CosineAnnealingWarmupRestarts}
    (h : s.cur_cycle_steps ≤ s.step_in_cycle + 1) :
    (step_impl s).cycle = s.cycle + 1 ∧
    (step_impl s).step_in_cycle = s.step_in_cycle + 1 - s.cur_cycle_steps ∧
    (step_impl s).cur_cycle_steps =
      ((pyInt ((s.cur_cycle_steps - (s.warmup_steps : ℝ)) * s.cycle_mult) +
        (s.warmup_steps : ℤ) : ℤ) : ℝ) ∧
    (step_impl s).max_lr = s.base_max_lr * s.gamma ^ (s.cycle + 1) := by
  unfold step_impl
  rw [if_pos h]
  exact ⟨rfl, rfl, rfl, rfl⟩

theorem iter_config (s : CosineAnnealingWarmupRestarts) (k : ℕ) :
    (step_impl^[k] s).first_cycle_steps = s.first_cycle_steps ∧
    (step_impl^[k] s).cycle_mult = s.cycle_mult ∧
    (step_impl^[k] s).base_max_lr = s.base_max_lr ∧
    (step_impl^[k] s).min_lr = s.min_lr ∧
    (step_impl^[k] s).warmup_steps = s.warmup_steps ∧
    (step_impl^[k] s).gamma = s.gamma ∧
    (step_impl^[k] s).base_lrs = s.base_lrs := by
  induction k with
  | zero => simp
  | succ n ih =>
    rw [Function.iterate_succ_apply']
    simp [ih.1, ih.2.1, ih.2.2.1, ih.2.2.2.1, ih.2.2.2.2.1, ih.2.2.2.2.2.1,
      ih.2.2.2.2.2.2]

theorem iter_no_restart (s : CosineAnnealingWarmupRestarts) :
    ∀ k : ℕ, s.step_in_cycle + k < s.cur_cycle_steps →
    (step_impl^[k] s).cycle = s.cycle ∧
    (step_impl^[k] s).step_in_cycle = s.step_in_cycle + k ∧
    (step_impl^[k] s).cur_cycle_steps = s.cur_cycle_steps ∧
    (step_impl^[k] s).last_epoch = s.last_epoch + k := by
  intro k
  induction k with
  | zero => intro _; simp
  | succ n ih =>
    intro h
    have hn : s.step_in_cycle + (n : ℝ) < s.cur_cycle_steps := by
      push_cast at h ⊢
      linarith
    obtain ⟨hc, hsic, hcur, hl⟩ := ih hn
    rw [Function.iterate_succ_apply']
    have hlt : (step_impl^[n] s).step_in_cycle + 1 < (step_impl^[n] s).cur_cycle_steps := by
      rw [hsic, hcur]
      push_cast at h ⊢
      linarith
    obtain ⟨c1, c2, c3, _⟩ := step_impl_of_lt hlt
    refine ⟨by rw [c1, hc], ?_, by rw [c3, hcur], ?_⟩
    · rw [c2, hsic]
      push_cast
      ring
    · rw [step_impl_last, hl]
      push_cast
      ring

theorem construct_eq (f : ℕ) (mult maxlr minlr : ℝ) (w : ℕ) (g : ℝ) (il : List ℝ)
    (hwf : w < f) :
    construct f mult maxlr minlr w g il =
      some (freshState f mult maxlr minlr w g il) := by
  have hf : 0 < f := lt_of_le_of_lt (Nat.zero_le w) hwf
  have hfR : (0 : ℝ) < (f : ℝ) := by exact_mod_cast hf
  unfold construct
  rw [if_pos hwf]
  congr 1
  unfold step_impl
  rw [if_neg (by simp only []; linarith)]
  unfold init_lr apply_tail freshState
  simp only []
  ext
  · rfl
  · rfl
  · rfl
  · simp [zpow_zero]
  · rfl
  · rfl
  · rfl
  · rfl
  · rfl
  · norm_num
  · norm_num
  · rw [list_map_const, get_lr_length]
  · rw [list_map_const, get_lr_length]

theorem nat_succ_div_mod_lt {t f : ℕ} (hf : 0 < f) (h : t % f + 1 < f) :
    (t + 1) / f = t / f ∧ (t + 1) % f = t % f + 1 := by
  have key : t + 1 = (t % f + 1) + f * (t / f) := by
    conv_lhs => rw [← Nat.div_add_mod t f]
    ring
  constructor
  · rw [key, Nat.add_mul_div_left _ _ hf, Nat.div_eq_of_lt h, Nat.zero_add]
  · rw [key, Nat.add_mul_mod_self_left, Nat.mod_eq_of_lt h]

theorem nat_succ_div_mod_eq {t f : ℕ} (hf : 0 < f) (h : t % f + 1 = f) :
    (t + 1) / f = t / f + 1 ∧ (t + 1) % f = 0 := by
  have key : f * (t / f + 1) = t + 1 := by
    have h1 : f * (t / f) + t % f = t := Nat.div_add_mod t f
    calc f * (t / f + 1) = f * (t / f) + f := by ring
      _ = f * (t / f) + (t % f + 1) := by rw [h]
      _ = t + 1 := by rw [← Nat.add_assoc, h1]
  constructor
  · rw [← key, Nat.mul_div_cancel_left _ hf]
  · rw [← key, Nat.mul_mod_right]

theorem iter_mult_one (f w : ℕ) (maxlr minlr g : ℝ) (il : List ℝ) (hwf : w < f) :
    ∀ t : ℕ,
    (step_impl^[t] (freshState f 1 maxlr minlr w g il)).cycle = ((t / f : ℕ) : ℤ) ∧
    (step_impl^[t] (freshState f 1 maxlr minlr w g il)).step_in_cycle =
      ((t % f : ℕ) : ℝ) ∧
    (step_impl^[t] (freshState f 1 maxlr minlr w g il)).cur_cycle_steps = (f : ℝ) ∧
    (step_impl^[t] (freshState f 1 maxlr minlr w g il)).max_lr =
      maxlr * g ^ (t / f : ℕ) ∧
    (step_impl^[t] (freshState f 1 maxlr minlr w g il)).last_epoch = (t : ℤ) := by
  have hf : 0 < f := lt_of_le_of_lt (Nat.zero_le w) hwf
  intro t
  induction t with
  | zero =>
    refine ⟨by simp [freshState], by simp [freshState], by simp [freshState], ?_,
      by simp [freshState]⟩
    simp [freshState, Nat.zero_div]
  | succ t ih =>
    obtain ⟨ic, isic, icur, imax, ilast⟩ := ih
    obtain ⟨cf0, cm0, cb0, cmin0, cw0, cg0, cbl0⟩ :=
      iter_config (freshState f 1 maxlr minlr w g il) t
    have cm : (step_impl^[t] (freshState f 1 maxlr minlr w g il)).cycle_mult = 1 :=
      cm0.trans rfl
    have cb : (step_impl^[t] (freshState f 1 maxlr minlr w g il)).base_max_lr = maxlr :=
      cb0.trans rfl
    have cw : (step_impl^[t] (freshState f 1 maxlr minlr w g il)).warmup_steps = w :=
      cw0.trans rfl
    have cg : (step_impl^[t] (freshState f 1 maxlr minlr w g il)).gamma = g :=
      cg0.trans rfl
    rw [Function.iterate_succ_apply']
    by_cases hcase : t % f + 1 < f
    · have hlt : (step_impl^[t] (freshState f 1 maxlr minlr w g il)).step_in_cycle + 1 <
          (step_impl^[t] (freshState f 1 maxlr minlr w g il)).cur_cycle_steps := by
        rw [isic, icur]
        exact_mod_cast hcase
      obtain ⟨c1, c2, c3, c4⟩ := step_impl_of_lt hlt
      obtain ⟨hdiv, hmod⟩ := nat_succ_div_mod_lt hf hcase
      refine ⟨?_, ?_, ?_, ?_, ?_⟩
      · rw [c1, ic, hdiv]
      · rw [c2, isic, hmod]
        push_cast
        ring
      · rw [c3, icur]
      · rw [c4, cb, cg, ic, hdiv, zpow_natCast]
      · rw [step_impl_last, ilast]
        push_cast
        ring
    · have heq : t % f + 1 = f := by
        have := Nat.mod_lt t hf
        omega
      have hge : (step_impl^[t] (freshState f 1 maxlr minlr w g il)).cur_cycle_steps ≤
          (step_impl^[t] (freshState f 1 maxlr minlr w g il)).step_in_cycle + 1 := by
        rw [isic, icur]
        exact_mod_cast le_of_eq heq.symm
      obtain ⟨c1, c2, c3, c4⟩ := step_impl_of_ge hge
      obtain ⟨hdiv, hmod⟩ := nat_succ_div_mod_eq hf heq
      refine ⟨?_, ?_, ?_, ?_, ?_⟩
      · rw [c1, ic, hdiv]
        push_cast
        ring
      · rw [c2, isic, icur, hmod]
        have hR : ((t % f : ℕ) : ℝ) + 1 = (f : ℝ) := by exact_mod_cast heq
        rw [hR, sub_self]
        norm_num
      · rw [c3, icur, cw, cm]
        have h1 : ((f : ℝ) - (w : ℝ)) * 1 = ((f - w : ℕ) : ℝ) := by
          rw [mul_one, Nat.cast_sub (le_of_lt hwf)]
        rw [h1, pyInt_natCast]
        have h2 : ((f - w : ℕ) : ℤ) + (w : ℤ) = (f : ℤ) := by omega
        rw [h2]
        norm_cast
      · rw [c4, cb, cg, ic, hdiv]
        have h3 : ((t / f : ℕ) : ℤ) + 1 = ((t / f + 1 : ℕ) : ℤ) := by push_cast; ring
        rw [h3, zpow_natCast]
      · rw [step_impl_last, ilast]
        push_cast
        ring

theorem get_lr_warmup {s : CosineAnnealingWarmupRestarts}
    (hg : ¬(0 < s.cycle ∧ s.cycle_mult = 0)) (h0 : 0 ≤ s.step_in_cycle)
    (hlt : s.step_in_cycle < (s.warmup_steps : ℝ)) :
    get_lr s = s.base_lrs.map (fun base_lr =>
      (s.max_lr - base_lr) * s.step_in_cycle / (s.warmup_steps : ℝ) + base_lr) := by
  have hne : ¬s.step_in_cycle = -1 := by
    intro hEq
    rw [hEq] at h0
    linarith
  unfold get_lr
  rw [if_neg hg, if_neg hne, if_pos hlt]

theorem get_lr_cosine {s : CosineAnnealingWarmupRestarts}
    (hg : ¬(0 < s.cycle ∧ s.cycle_mult = 0)) (h0 : 0 ≤ s.step_in_cycle)
    (hge : ¬s.step_in_cycle < (s.warmup_steps : ℝ)) :
    get_lr s = s.base_lrs.map (fun base_lr =>
      base_lr + (s.max_lr - base_lr) *
        (1 + Real.cos (Real.pi * (s.step_in_cycle - (s.warmup_steps : ℝ)) /
          (s.cur_cycle_steps - (s.warmup_steps : ℝ)))) / 2) := by
  have hne : ¬s.step_in_cycle = -1 := by
    intro hEq
    rw [hEq] at h0
    linarith
  unfold get_lr
  rw [if_neg hg, if_neg hne, if_neg hge]

/-- C10: construction signals the assertion failure exactly when
`warmup_steps >= first_cycle_steps`; every other configuration value (any sign or
magnitude of `cycle_mult`, `max_lr`, `min_lr`, `gamma`) is accepted. -/
theorem C10_construct_assert (f : ℕ) (mult maxlr minlr : ℝ) (w : ℕ) (g : ℝ)
    (il : List ℝ) :
    construct f mult maxlr minlr w g il = none ↔ f ≤ w := by
  unfold construct
  split_ifs with h
  · exact iff_of_false (by simp) (by omega)
  · exact iff_of_true rfl (by omega)

/-- C2: in every started state outside the degenerate guard, `get_lr` returns, per
parameter group, the linear warmup interpolation when `step_in_cycle < warmup_steps`
and the cosine value otherwise (the spec's formulas, `spec_rate`). -/
theorem C2_get_lr_formula (s : CosineAnnealingWarmupRestarts) (n : ℕ)
    (hg : ¬(0 < s.cycle ∧ s.cycle_mult = 0)) (h0 : 0 ≤ s.step_in_cycle)
    (hb : s.base_lrs = List.replicate n s.min_lr) :
    get_lr s = List.replicate n (spec_rate s) := by
  have hne : ¬s.step_in_cycle = -1 := by
    intro hEq
    rw [hEq] at h0
    linarith
  unfold get_lr spec_rate
  rw [if_neg hg, if_neg hne, hb]
  split_ifs with hx
  · rw [List.map_replicate]
    congr 1
    ring
  · rw [List.map_replicate]

/-- Witness for C2: a concrete started state (the post-construction state of a
valid configuration) satisfies the hypotheses and the conclusion. -/
theorem C2_get_lr_formula_witness :
    (¬(0 < (freshState 10 1 0.1 0.001 2 1 [0.5]).cycle ∧
        (freshState 10 1 0.1 0.001 2 1 [0.5]).cycle_mult = 0)) ∧
    0 ≤ (freshState 10 1 0.1 0.001 2 1 [0.5]).step_in_cycle ∧
    (freshState 10 1 0.1 0.001 2 1 [0.5]).base_lrs =
      List.replicate 1 (freshState 10 1 0.1 0.001 2 1 [0.5]).min_lr ∧
    get_lr (freshState 10 1 0.1 0.001 2 1 [0.5]) =
      List.replicate 1 (spec_rate (freshState 10 1 0.1 0.001 2 1 [0.5])) := by
  refine ⟨?_, ?_, ?_, ?_⟩
  · simp [freshState]
  · simp [freshState]
  · simp [freshState]
  · exact C2_get_lr_formula _ 1 (by simp [freshState]) (by simp [freshState])
      (by simp [freshState])

/-- Counterexample to C6: for `warmup_steps = 0` (a valid configuration), the rate
query immediately after construction returns `max_lr = 0.1` for the single group,
not the floor rate `min_lr = 0.001`. -/
theorem C6_counterexample :
    construct 5 1 0.1 0.001 0 1 [0.5] = some (freshState 5 1 0.1 0.001 0 1 [0.5]) ∧
    get_lr (freshState 5 1 0.1 0.001 0 1 [0.5]) = [0.1] ∧
    (0.1 : ℝ) ≠ 0.001 := by
  refine ⟨construct_eq 5 1 0.1 0.001 0 1 [0.5] (by norm_num), ?_, by norm_num⟩
  rw [get_lr_cosine (by simp [freshState]) (by simp [freshState])
    (by simp [freshState])]
  simp only [freshState, List.length_cons, List.length_nil, List.map_replicate]
  have harg : Real.pi * ((0 : ℝ) - (0 : ℕ)) / ((5 : ℕ) - (0 : ℕ)) = 0 := by
    push_cast
    ring
  rw [harg, Real.cos_zero]
  norm_num

/-- C6 (amended): after construction every stored per-group rate equals `min_lr`
for every valid configuration; and whenever `warmup_steps ≥ 1` the rate query
also returns `min_lr` for every group (for `warmup_steps = 0` it returns
`max_lr`, as the counterexample shows). -/
theorem C6_amended_fresh_rates (f : ℕ) (mult maxlr minlr : ℝ) (w : ℕ) (g : ℝ)
    (il : List ℝ) (hwf : w < f) :
    construct f mult maxlr minlr w g il =
      some (freshState f mult maxlr minlr w g il) ∧
    (freshState f mult maxlr minlr w g il).lrs = List.replicate il.length minlr ∧
    (1 ≤ w → get_lr (freshState f mult maxlr minlr w g il) =
      List.replicate il.length minlr) := by
  refine ⟨construct_eq f mult maxlr minlr w g il hwf, rfl, ?_⟩
  intro hw
  have hlt : (freshState f mult maxlr minlr w g il).step_in_cycle <
      ((freshState f mult maxlr minlr w g il).warmup_steps : ℝ) := by
    show (0 : ℝ) < (w : ℝ)
    exact_mod_cast Nat.lt_of_lt_of_le Nat.zero_lt_one hw
  rw [get_lr_warmup (by simp [freshState]) (by simp [freshState]) hlt]
  simp only [freshState, List.map_replicate]
  congr 1
  norm_num

/-- Witness for C6 (amended) at a concrete valid configuration with warmup. -/
theorem C6_amended_fresh_rates_witness :
    1 < 4 ∧
    (construct 4 1 0.1 0.001 1 1 [0.5] = some (freshState 4 1 0.1 0.001 1 1 [0.5]) ∧
    (freshState 4 1 0.1 0.001 1 1 [0.5]).lrs =
      List.replicate (List.length [(0.5 : ℝ)]) 0.001 ∧
    (1 ≤ 1 → get_lr (freshState 4 1 0.1 0.001 1 1 [0.5]) =
      List.replicate (List.length [(0.5 : ℝ)]) 0.001)) :=
  ⟨by norm_num, C6_amended_fresh_rates 4 1 0.1 0.001 1 1 [0.5] (by norm_num)⟩

/-- C3: the concrete scenario `first_cycle_steps = 10, warmup_steps = 2,
max_lr = 0.1, min_lr = 0, cycle_mult = 1, gamma = 1`: stepping implicitly from
construction, the rate is 0 at global step 0, 0.05 at step 1, 0.1 at step 2,
0.05 at step 6, and 0 at step 10 where the cycle count is 1. -/
theorem C3_concrete_scenario :
    construct 10 1 0.1 0 2 1 [0.5] = some (freshState 10 1 0.1 0 2 1 [0.5]) ∧
    get_lr (freshState 10 1 0.1 0 2 1 [0.5]) = [0] ∧
    get_lr (step_impl^[1] (freshState 10 1 0.1 0 2 1 [0.5])) = [0.05] ∧
    get_lr (step_impl^[2] (freshState 10 1 0.1 0 2 1 [0.5])) = [0.1] ∧
    get_lr (step_impl^[6] (freshState 10 1 0.1 0 2 1 [0.5])) = [0.05] ∧
    get_lr (step_impl^[10] (freshState 10 1 0.1 0 2 1 [0.5])) = [0] ∧
    (step_impl^[10] (freshState 10 1 0.1 0 2 1 [0.5])).cycle = 1 ∧
    (step_impl^[10] (freshState 10 1 0.1 0 2 1 [0.5])).last_epoch = 10 := by
  have H := iter_mult_one 10 2 0.1 0 1 [0.5] (by norm_num)
  have HC := fun t => iter_config (freshState 10 1 0.1 0 2 1 [0.5]) t
  have hw : ∀ t : ℕ, (step_impl^[t] (freshState 10 1 0.1 0 2 1 [0.5])).warmup_steps = 2 :=
    fun t => ((HC t).2.2.2.2.1).trans rfl
  have hm : ∀ t : ℕ, (step_impl^[t] (freshState 10 1 0.1 0 2 1 [0.5])).cycle_mult = 1 :=
    fun t => ((HC t).2.1).trans rfl
  have hb : ∀ t : ℕ, (step_impl^[t] (freshState 10 1 0.1 0 2 1 [0.5])).base_lrs = List.replicate 1 (0 : ℝ) :=
    fun t => ((HC t).2.2.2.2.2.2).trans (by norm_num [freshState])
  refine ⟨construct_eq 10 1 0.1 0 2 1 [0.5] (by norm_num), ?_, ?_, ?_, ?_, ?_, ?_, ?_⟩
  · have hgx : ¬(0 < (freshState 10 1 0.1 0 2 1 [0.5]).cycle ∧ (freshState 10 1 0.1 0 2 1 [0.5]).cycle_mult = 0) := by
      simp [freshState]
    have h0x : (0 : ℝ) ≤ (freshState 10 1 0.1 0 2 1 [0.5]).step_in_cycle := by
      simp [freshState]
    have hltx : (freshState 10 1 0.1 0 2 1 [0.5]).step_in_cycle < ((freshState 10 1 0.1 0 2 1 [0.5]).warmup_steps : ℝ) := by
      show (0 : ℝ) < ((2 : ℕ) : ℝ)
      norm_num
    rw [get_lr_warmup hgx h0x hltx]
    simp only [freshState, List.length_cons, List.length_nil, List.map_replicate]
    norm_num [List.replicate_one]
  · have ic : (step_impl^[1] (freshState 10 1 0.1 0 2 1 [0.5])).cycle = 0 := by
      rw [(H 1).1]; norm_num
    have isic : (step_impl^[1] (freshState 10 1 0.1 0 2 1 [0.5])).step_in_cycle = 1 := by
      rw [(H 1).2.1]; norm_num
    have imax : (step_impl^[1] (freshState 10 1 0.1 0 2 1 [0.5])).max_lr = 0.1 := by
      rw [(H 1).2.2.2.1]; norm_num
    have hgx : ¬(0 < (step_impl^[1] (freshState 10 1 0.1 0 2 1 [0.5])).cycle ∧ (step_impl^[1] (freshState 10 1 0.1 0 2 1 [0.5])).cycle_mult = 0) := by
      rw [ic, hm 1]; norm_num
    have h0x : 0 ≤ (step_impl^[1] (freshState 10 1 0.1 0 2 1 [0.5])).step_in_cycle := by
      rw [isic]; norm_num
    have hltx : (step_impl^[1] (freshState 10 1 0.1 0 2 1 [0.5])).step_in_cycle < ((step_impl^[1] (freshState 10 1 0.1 0 2 1 [0.5])).warmup_steps : ℝ) := by
      rw [isic, hw 1]; norm_num
    rw [get_lr_warmup hgx h0x hltx]
    rw [hb 1, List.map_replicate, isic, hw 1, imax]
    norm_num [List.replicate_one]
  · have ic : (step_impl^[2] (freshState 10 1 0.1 0 2 1 [0.5])).cycle = 0 := by
      rw [(H 2).1]; norm_num
    have isic : (step_impl^[2] (freshState 10 1 0.1 0 2 1 [0.5])).step_in_cycle = 2 := by
      rw [(H 2).2.1]; norm_num
    have icur : (step_impl^[2] (freshState 10 1 0.1 0 2 1 [0.5])).cur_cycle_steps = 10 := by
      rw [(H 2).2.2.1]; norm_num
    have imax : (step_impl^[2] (freshState 10 1 0.1 0 2 1 [0.5])).max_lr = 0.1 := by
      rw [(H 2).2.2.2.1]; norm_num
    have hgx : ¬(0 < (step_impl^[2] (freshState 10 1 0.1 0 2 1 [0.5])).cycle ∧ (step_impl^[2] (freshState 10 1 0.1 0 2 1 [0.5])).cycle_mult = 0) := by
      rw [ic, hm 2]; norm_num
    have h0x : 0 ≤ (step_impl^[2] (freshState 10 1 0.1 0 2 1 [0.5])).step_in_cycle := by
      rw [isic]; norm_num
    have hgex : ¬(step_impl^[2] (freshState 10 1 0.1 0 2 1 [0.5])).step_in_cycle < ((step_impl^[2] (freshState 10 1 0.1 0 2 1 [0.5])).warmup_steps : ℝ) := by
      rw [isic, hw 2]; norm_num
    rw [get_lr_cosine hgx h0x hgex]
    rw [hb 2, List.map_replicate, isic, hw 2, icur, imax]
    have harg : Real.pi * ((2 : ℝ) - ((2 : ℕ) : ℝ)) / ((10 : ℝ) - ((2 : ℕ) : ℝ)) = 0 := by
      push_cast
      ring
    rw [harg, Real.cos_zero]
    norm_num [List.replicate_one]
  · have ic : (step_impl^[6] (freshState 10 1 0.1 0 2 1 [0.5])).cycle = 0 := by
      rw [(H 6).1]; norm_num
    have isic : (step_impl^[6] (freshState 10 1 0.1 0 2 1 [0.5])).step_in_cycle = 6 := by
      rw [(H 6).2.1]; norm_num
    have icur : (step_impl^[6] (freshState 10 1 0.1 0 2 1 [0.5])).cur_cycle_steps = 10 := by
      rw [(H 6).2.2.1]; norm_num
    have imax : (step_impl^[6] (freshState 10 1 0.1 0 2 1 [0.5])).max_lr = 0.1 := by
      rw [(H 6).2.2.2.1]; norm_num
    have hgx : ¬(0 < (step_impl^[6] (freshState 10 1 0.1 0 2 1 [0.5])).cycle ∧ (step_impl^[6] (freshState 10 1 0.1 0 2 1 [0.5])).cycle_mult = 0) := by
      rw [ic, hm 6]; norm_num
    have h0x : 0 ≤ (step_impl^[6] (freshState 10 1 0.1 0 2 1 [0.5])).step_in_cycle := by
      rw [isic]; norm_num
    have hgex : ¬(step_impl^[6] (freshState 10 1 0.1 0 2 1 [0.5])).step_in_cycle < ((step_impl^[6] (freshState 10 1 0.1 0 2 1 [0.5])).warmup_steps : ℝ) := by
      rw [isic, hw 6]; norm_num
    rw [get_lr_cosine hgx h0x hgex]
    rw [hb 6, List.map_replicate, isic, hw 6, icur, imax]
    have harg : Real.pi * ((6 : ℝ) - ((2 : ℕ) : ℝ)) / ((10 : ℝ) - ((2 : ℕ) : ℝ)) =
        Real.pi / 2 := by
      push_cast
      ring
    rw [harg, Real.cos_pi_div_two]
    norm_num [List.replicate_one]
  · have ic : (step_impl^[10] (freshState 10 1 0.1 0 2 1 [0.5])).cycle = 1 := by
      rw [(H 10).1]; norm_num
    have isic : (step_impl^[10] (freshState 10 1 0.1 0 2 1 [0.5])).step_in_cycle = 0 := by
      rw [(H 10).2.1]; norm_num
    have imax : (step_impl^[10] (freshState 10 1 0.1 0 2 1 [0.5])).max_lr = 0.1 := by
      rw [(H 10).2.2.2.1]; norm_num
    have hgx : ¬(0 < (step_impl^[10] (freshState 10 1 0.1 0 2 1 [0.5])).cycle ∧ (step_impl^[10] (freshState 10 1 0.1 0 2 1 [0.5])).cycle_mult = 0) := by
      rw [ic, hm 10]; norm_num
    have h0x : 0 ≤ (step_impl^[10] (freshState 10 1 0.1 0 2 1 [0.5])).step_in_cycle := by
      rw [isic]
    have hltx : (step_impl^[10] (freshState 10 1 0.1 0 2 1 [0.5])).step_in_cycle < ((step_impl^[10] (freshState 10 1 0.1 0 2 1 [0.5])).warmup_steps : ℝ) := by
      rw [isic, hw 10]; norm_num
    rw [get_lr_warmup hgx h0x hltx]
    rw [hb 10, List.map_replicate, isic, hw 10, imax]
    norm_num [List.replicate_one]
  · exact ((H 10).1).trans (by norm_num)
  · exact ((H 10).2.2.2.2).trans (by norm_num)

/-- C4: for every valid configuration (positive-direction multiplier), exactly
`cur_cycle_steps` (= `first_cycle_steps`) implicit advances from a fresh start
return the state to `step_in_cycle = 0`, increment `cycle` to 1, multiply
`max_lr` by `gamma`, and set the new cycle length to
`floor((old_cycle_length - warmup_steps) * cycle_mult) + warmup_steps`. -/
theorem C4_restart_after_full_cycle (f w : ℕ) (mult maxlr minlr g : ℝ)
    (il : List ℝ) (hwf : w < f) (hm : 0 ≤ mult) :
    (freshState f mult maxlr minlr w g il).cur_cycle_steps = (f : ℝ) ∧
    (step_impl^[f] (freshState f mult maxlr minlr w g il)).step_in_cycle = 0 ∧
    (step_impl^[f] (freshState f mult maxlr minlr w g il)).cycle = 1 ∧
    (step_impl^[f] (freshState f mult maxlr minlr w g il)).max_lr = maxlr * g ∧
    (step_impl^[f] (freshState f mult maxlr minlr w g il)).cur_cycle_steps =
      ((⌊((f : ℝ) - (w : ℝ)) * mult⌋ + (w : ℤ) : ℤ) : ℝ) := by
  have hf : 0 < f := lt_of_le_of_lt (Nat.zero_le w) hwf
  have hsplit : step_impl^[f] (freshState f mult maxlr minlr w g il) =
      step_impl (step_impl^[f - 1] (freshState f mult maxlr minlr w g il)) := by
    have hiter : ∀ s : CosineAnnealingWarmupRestarts,
        step_impl^[f] s = step_impl (step_impl^[f - 1] s) := by
      intro s
      conv_lhs => rw [show f = (f - 1) + 1 by omega]
      rw [Function.iterate_succ_apply']
    exact hiter _
  have hcast : ((f - 1 : ℕ) : ℝ) = (f : ℝ) - 1 := by
    push_cast [Nat.cast_sub (by omega : 1 ≤ f)]
    ring
  obtain ⟨ic, isic, icur, -⟩ :=
    iter_no_restart (freshState f mult maxlr minlr w g il) (f - 1)
      (by
        show (freshState f mult maxlr minlr w g il).step_in_cycle + ((f - 1 : ℕ) : ℝ) <
          (freshState f mult maxlr minlr w g il).cur_cycle_steps
        rw [hcast]
        show (0 : ℝ) + ((f : ℝ) - 1) < (f : ℝ)
        linarith)
  obtain ⟨cf0, cm0, cb0, cmin0, cw0, cg0, cbl0⟩ :=
    iter_config (freshState f mult maxlr minlr w g il) (f - 1)
  have hS0 : (step_impl^[f - 1] (freshState f mult maxlr minlr w g il)).step_in_cycle =
      (f : ℝ) - 1 := by
    rw [isic, hcast]
    show (0 : ℝ) + ((f : ℝ) - 1) = (f : ℝ) - 1
    ring
  have hge : (step_impl^[f - 1] (freshState f mult maxlr minlr w g il)).cur_cycle_steps ≤
      (step_impl^[f - 1] (freshState f mult maxlr minlr w g il)).step_in_cycle + 1 := by
    rw [hS0, icur]
    show (f : ℝ) ≤ (f : ℝ) - 1 + 1
    linarith
  obtain ⟨c1, c2, c3, c4⟩ := step_impl_of_ge hge
  refine ⟨rfl, ?_, ?_, ?_, ?_⟩
  · rw [hsplit, c2, hS0, icur]
    show (f : ℝ) - 1 + 1 - (f : ℝ) = 0
    ring
  · rw [hsplit, c1, ic]
    rfl
  · rw [hsplit, c4, cb0, cg0, ic]
    show maxlr * g ^ ((0 : ℤ) + 1) = maxlr * g
    rw [zero_add, zpow_one]
  · rw [hsplit, c3, icur, cw0, cm0]
    show ((pyInt (((f : ℝ) - ((w : ℕ) : ℝ)) * mult) + ((w : ℕ) : ℤ) : ℤ) : ℝ) =
      ((⌊((f : ℝ) - (w : ℝ)) * mult⌋ + (w : ℤ) : ℤ) : ℝ)
    rw [pyInt_of_nonneg (mul_nonneg (by
      rw [sub_nonneg]
      exact_mod_cast le_of_lt hwf) hm)]
  

/-- Witness for C4 at a concrete valid configuration. -/
theorem C4_restart_after_full_cycle_witness :
    2 < 5 ∧ (0 : ℝ) ≤ 1.5 ∧
    ((freshState 5 1.5 0.1 0.001 2 0.9 [0.5]).cur_cycle_steps = ((5 : ℕ) : ℝ) ∧
    (step_impl^[5] (freshState 5 1.5 0.1 0.001 2 0.9 [0.5])).step_in_cycle = 0 ∧
    (step_impl^[5] (freshState 5 1.5 0.1 0.001 2 0.9 [0.5])).cycle = 1 ∧
    (step_impl^[5] (freshState 5 1.5 0.1 0.001 2 0.9 [0.5])).max_lr = 0.1 * 0.9 ∧
    (step_impl^[5] (freshState 5 1.5 0.1 0.001 2 0.9 [0.5])).cur_cycle_steps =
      ((⌊(((5 : ℕ) : ℝ) - ((2 : ℕ) : ℝ)) * 1.5⌋ + ((2 : ℕ) : ℤ) : ℤ) : ℝ)) :=
  ⟨by norm_num, by norm_num,
    C4_restart_after_full_cycle 5 2 1.5 0.1 0.001 0.9 [0.5] (by norm_num) (by norm_num)⟩

theorem pyInt_log_ratio (b x : ℝ) (n : ℕ) (hb : 1 < b) (h1 : b ^ n ≤ x)
    (h2 : x < b ^ (n + 1)) : pyInt (Real.log x / Real.log b) = (n : ℤ) := by
  have hb0 : (0 : ℝ) < b := lt_trans one_pos hb
  have hlogb : 0 < Real.log b := Real.log_pos hb
  have hx0 : (0 : ℝ) < x := lt_of_lt_of_le (pow_pos hb0 n) h1
  have hlow : (n : ℝ) ≤ Real.log x / Real.log b := by
    rw [le_div_iff₀ hlogb]
    calc (n : ℝ) * Real.log b = Real.log (b ^ n) := (Real.log_pow b n).symm
      _ ≤ Real.log x := Real.log_le_log (pow_pos hb0 n) h1
  have hhigh : Real.log x / Real.log b < (n : ℝ) + 1 := by
    rw [div_lt_iff₀ hlogb]
    calc Real.log x < Real.log (b ^ (n + 1)) := Real.log_lt_log hx0 h2
      _ = ((n : ℝ) + 1) * Real.log b := by
        rw [Real.log_pow]
        push_cast
        ring
  have hnn : 0 ≤ Real.log x / Real.log b := le_trans (Nat.cast_nonneg n) hlow
  rw [pyInt_of_nonneg hnn, Int.floor_eq_iff]
  constructor
  · push_cast
    exact hlow
  · push_cast
    exact hhigh

theorem step_epoch_small {s : CosineAnnealingWarmupRestarts} {t : ℕ}
    (h : ¬s.first_cycle_steps ≤ t) :
    step_epoch s t = some (apply_tail
      { s with cur_cycle_steps := (s.first_cycle_steps : ℝ), step_in_cycle := (t : ℝ) }
      (t : ℤ)) := by
  unfold step_epoch
  rw [if_neg h]

theorem step_epoch_mod {s : CosineAnnealingWarmupRestarts} {t : ℕ}
    (hge : s.first_cycle_steps ≤ t) (hm : s.cycle_mult = 1) :
    step_epoch s t = some (apply_tail
      { s with
        step_in_cycle := ((t % s.first_cycle_steps : ℕ) : ℝ)
        cycle := ((t / s.first_cycle_steps : ℕ) : ℤ) }
      (t : ℤ)) := by
  unfold step_epoch
  rw [if_pos hge, if_pos hm]

theorem step_epoch_log {s : CosineAnnealingWarmupRestarts} {t : ℕ}
    (hge : s.first_cycle_steps ≤ t) (hm1 : ¬s.cycle_mult = 1)
    (hx : 0 < (t : ℝ) / (s.first_cycle_steps : ℝ) * (s.cycle_mult - 1) + 1)
    (hmp : 0 < s.cycle_mult) :
    step_epoch s t = some (apply_tail
      { s with
        cycle :=
          pyInt (Real.log ((t : ℝ) / (s.first_cycle_steps : ℝ) *
            (s.cycle_mult - 1) + 1) / Real.log s.cycle_mult)
        step_in_cycle :=
          (t : ℝ) -
            ((pyInt ((s.first_cycle_steps : ℝ) *
              (s.cycle_mult ^
                (pyInt (Real.log ((t : ℝ) / (s.first_cycle_steps : ℝ) *
                  (s.cycle_mult - 1) + 1) / Real.log s.cycle_mult)) - 1) /
              (s.cycle_mult - 1)) : ℤ) : ℝ)
        cur_cycle_steps :=
          (s.first_cycle_steps : ℝ) * s.cycle_mult ^
            (pyInt (Real.log ((t : ℝ) / (s.first_cycle_steps : ℝ) *
              (s.cycle_mult - 1) + 1) / Real.log s.cycle_mult)) }
      (t : ℤ)) := by
  unfold step_epoch
  rw [if_pos hge, if_neg hm1, if_pos (And.intro hx hmp)]

/-- C8 (amended): across every sequence of implicit advances, `last_epoch` never
decreases (each implicit advance raises it by one); an explicit advance instead
overwrites it with the supplied target, which may be smaller. -/
theorem C8_amended_implicit_monotone (s : CosineAnnealingWarmupRestarts) (k : ℕ) :
    s.last_epoch ≤ (step_impl^[k] s).last_epoch := by
  induction k with
  | zero => simp
  | succ n ih =>
    rw [Function.iterate_succ_apply', step_impl_last]
    omega

/-- Counterexample to C8: an explicit advance to absolute step 5 followed by an
explicit advance to absolute step 3 makes `last_epoch` decrease from 5 to 3. -/
theorem C8_counterexample :
    ((freshState 10 1 0.1 0.001 2 1 [0.5]).step_epoch 5).map last_epoch = some 5 ∧
    (((freshState 10 1 0.1 0.001 2 1 [0.5]).step_epoch 5).bind
      (fun s => s.step_epoch 3)).map last_epoch = some 3 ∧
    ¬(5 : ℤ) ≤ 3 := by
  have h5 := step_epoch_small
    (s := freshState 10 1 0.1 0.001 2 1 [0.5]) (t := 5) (by norm_num [freshState])
  refine ⟨?_, ?_, by norm_num⟩
  · rw [h5, Option.map_some', apply_tail_last]
    norm_num
  · rw [h5, Option.some_bind]
    have h3 := step_epoch_small
      (s := apply_tail
        { freshState 10 1 0.1 0.001 2 1 [0.5] with
          cur_cycle_steps := (((freshState 10 1 0.1 0.001 2 1 [0.5]).first_cycle_steps : ℕ) : ℝ)
          step_in_cycle := ((5 : ℕ) : ℝ) }
        ((5 : ℕ) : ℤ)) (t := 3) (by norm_num [freshState])
    rw [h3, Option.map_some', apply_tail_last]
    norm_num


theorem reachesImp_config {s0 s : CosineAnnealingWarmupRestarts}
    (h : ReachesImp s0 s) :
    s.first_cycle_steps = s0.first_cycle_steps ∧ s.cycle_mult = s0.cycle_mult ∧
    s.base_max_lr = s0.base_max_lr ∧ s.min_lr = s0.min_lr ∧
    s.warmup_steps = s0.warmup_steps ∧ s.gamma = s0.gamma ∧
    s.base_lrs = s0.base_lrs := by
  induction h with
  | refl => exact ⟨rfl, rfl, rfl, rfl, rfl, rfl, rfl⟩
  | @stepI s' hr ih =>
    simp [ih.1, ih.2.1, ih.2.2.1, ih.2.2.2.1, ih.2.2.2.2.1, ih.2.2.2.2.2.1,
      ih.2.2.2.2.2.2]

/-- C7 (amended): along implicit advances the current cycle length is always an
integer (equal to its own floor); an explicit advance with `cycle_mult ≠ 1` can
set it to a non-integer value, as the counterexample shows. -/
theorem C7_amended_cycle_len_integer (f : ℕ) (mult maxlr minlr : ℝ) (w : ℕ)
    (g : ℝ) (il : List ℝ) (s : CosineAnnealingWarmupRestarts)
    (h : ReachesImp (freshState f mult maxlr minlr w g il) s) :
    ((⌊s.cur_cycle_steps⌋ : ℤ) : ℝ) = s.cur_cycle_steps := by
  induction h with
  | refl =>
    show ((⌊((f : ℕ) : ℝ)⌋ : ℤ) : ℝ) = ((f : ℕ) : ℝ)
    rw [Int.floor_natCast]
    norm_cast
  | @stepI s' hr ih =>
    rcases le_or_lt s'.cur_cycle_steps (s'.step_in_cycle + 1) with hc | hc
    · obtain ⟨-, -, c3, -⟩ := step_impl_of_ge hc
      rw [c3, Int.floor_intCast]
    · obtain ⟨-, -, c3, -⟩ := step_impl_of_lt hc
      rw [c3]
      exact ih

/-- Witness for C7 (amended): the fresh state of a concrete configuration. -/
theorem C7_amended_cycle_len_integer_witness :
    ReachesImp (freshState 7 1.5 0.1 0.001 2 1 [0.5])
      (freshState 7 1.5 0.1 0.001 2 1 [0.5]) ∧
    ((⌊(freshState 7 1.5 0.1 0.001 2 1 [0.5]).cur_cycle_steps⌋ : ℤ) : ℝ) =
      (freshState 7 1.5 0.1 0.001 2 1 [0.5]).cur_cycle_steps :=
  ⟨ReachesImp.refl,
    C7_amended_cycle_len_integer 7 1.5 0.1 0.001 2 1 [0.5] _ ReachesImp.refl⟩

/-- C5 (amended): for `cycle_mult ≥ 1`, in every state reachable from a valid
construction by implicit advances, `0 ≤ step_in_cycle < cur_cycle_steps`,
`warmup_steps < cur_cycle_steps`, and `max_lr = base_max_lr * gamma ^ cycle`;
an explicit advance with fractional `cycle_mult` can break the bound, as the
counterexample shows. -/
theorem C5_amended_implicit_invariants (f w : ℕ) (mult maxlr minlr g : ℝ)
    (il : List ℝ) (hwf : w < f) (hm : 1 ≤ mult)
    (s : CosineAnnealingWarmupRestarts)
    (h : ReachesImp (freshState f mult maxlr minlr w g il) s) :
    0 ≤ s.step_in_cycle ∧ s.step_in_cycle < s.cur_cycle_steps ∧
    (s.warmup_steps : ℝ) < s.cur_cycle_steps ∧
    s.max_lr = s.base_max_lr * s.gamma ^ s.cycle := by
  have main : 0 ≤ s.step_in_cycle ∧ s.step_in_cycle < s.cur_cycle_steps ∧
      (s.warmup_steps : ℝ) + 1 ≤ s.cur_cycle_steps ∧
      s.max_lr = s.base_max_lr * s.gamma ^ s.cycle := by
    induction h with
    | refl =>
      refine ⟨le_refl 0, ?_, ?_, ?_⟩
      · show (0 : ℝ) < ((f : ℕ) : ℝ)
        exact_mod_cast lt_of_le_of_lt (Nat.zero_le w) hwf
      · show ((w : ℕ) : ℝ) + 1 ≤ ((f : ℕ) : ℝ)
        have : w + 1 ≤ f := hwf
        exact_mod_cast this
      · show maxlr = maxlr * g ^ (0 : ℤ)
        rw [zpow_zero, mul_one]
    | @stepI s' hr ih =>
      obtain ⟨i0, i1, i2, i3⟩ := ih
      have hwcfg : s'.warmup_steps = w := (reachesImp_config hr).2.2.2.2.1.trans rfl
      have hmcfg : s'.cycle_mult = mult := (reachesImp_config hr).2.1.trans rfl
      rw [hwcfg] at i2
      rcases le_or_lt s'.cur_cycle_steps (s'.step_in_cycle + 1) with hc | hc
      · obtain ⟨c1, c2, c3, c4⟩ := step_impl_of_ge hc
        rw [hwcfg, hmcfg] at c3
        have hcw : (1 : ℝ) ≤ s'.cur_cycle_steps - (w : ℝ) := by linarith
        have h1R : (1 : ℝ) ≤ (s'.cur_cycle_steps - (w : ℝ)) * mult := by
          have hmul : 1 * mult ≤ (s'.cur_cycle_steps - (w : ℝ)) * mult :=
            mul_le_mul_of_nonneg_right hcw (le_trans zero_le_one hm)
          linarith
        have hpy : (1 : ℤ) ≤ pyInt ((s'.cur_cycle_steps - (w : ℝ)) * mult) := by
          rw [pyInt_of_nonneg (le_trans zero_le_one h1R)]
          exact Int.le_floor.mpr (by push_cast; exact h1R)
        have hcur' : ((w : ℕ) : ℝ) + 1 ≤
            ((pyInt ((s'.cur_cycle_steps - (w : ℝ)) * mult) + (w : ℤ) : ℤ) : ℝ) := by
          push_cast
          have : ((1 : ℤ) : ℝ) ≤
              ((pyInt ((s'.cur_cycle_steps - (w : ℝ)) * mult) : ℤ) : ℝ) := by
            exact_mod_cast hpy
          push_cast at this
          linarith
        refine ⟨?_, ?_, ?_, ?_⟩
        · rw [c2]
          linarith
        · rw [c2, c3]
          have hw0 : (0 : ℝ) ≤ ((w : ℕ) : ℝ) := Nat.cast_nonneg w
          linarith
        · rw [step_impl_warmup, hwcfg, c3]
          exact hcur'
        · rw [c4, c1, step_impl_base_max, step_impl_gamma]
      · obtain ⟨c1, c2, c3, c4⟩ := step_impl_of_lt hc
        refine ⟨?_, ?_, ?_, ?_⟩
        · rw [c2]
          linarith
        · rw [c2, c3]
          exact hc
        · rw [step_impl_warmup, hwcfg, c3]
          exact i2
        · rw [c4, c1, step_impl_base_max, step_impl_gamma]
  exact ⟨main.1, main.2.1, by linarith [main.2.2.1], main.2.2.2⟩

/-- Witness for C5 (amended) at a concrete configuration and the fresh state. -/
theorem C5_amended_implicit_invariants_witness :
    2 < 5 ∧ (1 : ℝ) ≤ 1 ∧
    ReachesImp (freshState 5 1 0.1 0.001 2 1 [0.5])
      (freshState 5 1 0.1 0.001 2 1 [0.5]) ∧
    (0 ≤ (freshState 5 1 0.1 0.001 2 1 [0.5]).step_in_cycle ∧
    (freshState 5 1 0.1 0.001 2 1 [0.5]).step_in_cycle <
      (freshState 5 1 0.1 0.001 2 1 [0.5]).cur_cycle_steps ∧
    ((freshState 5 1 0.1 0.001 2 1 [0.5]).warmup_steps : ℝ) <
      (freshState 5 1 0.1 0.001 2 1 [0.5]).cur_cycle_steps ∧
    (freshState 5 1 0.1 0.001 2 1 [0.5]).max_lr =
      (freshState 5 1 0.1 0.001 2 1 [0.5]).base_max_lr *
        (freshState 5 1 0.1 0.001 2 1 [0.5]).gamma ^
          (freshState 5 1 0.1 0.001 2 1 [0.5]).cycle) :=
  ⟨by norm_num, le_refl 1, ReachesImp.refl,
    C5_amended_implicit_invariants 5 2 1 0.1 0.001 1 [0.5] (by norm_num) (le_refl 1)
      _ ReachesImp.refl⟩

/-- Counterexample to C7: with `cycle_mult = 1.5` (positive), the explicit advance
to absolute step 30 computes `n = int(log(2.5, 1.5)) = 2` and sets
`cur_cycle_steps = 10 * 1.5 ^ 2 = 22.5`, which is not an integer. -/
theorem C7_counterexample :
    ((freshState 10 1.5 0.1 0.001 0 1 [0.5]).step_epoch 30).map cur_cycle_steps =
      some 22.5 ∧
    ((⌊(22.5 : ℝ)⌋ : ℤ) : ℝ) ≠ 22.5 := by
  constructor
  · rw [step_epoch_log (by norm_num [freshState]) (by norm_num [freshState])
      (by norm_num [freshState]) (by norm_num [freshState])]
    rw [Option.map_some', apply_tail_cur]
    simp only [freshState]
    rw [show ((30 : ℕ) : ℝ) / ((10 : ℕ) : ℝ) * ((1.5 : ℝ) - 1) + 1 = 2.5 from by
      push_cast; norm_num]
    rw [show pyInt (Real.log (2.5 : ℝ) / Real.log (1.5 : ℝ)) = (2 : ℤ) from by
      have h2 := pyInt_log_ratio 1.5 2.5 2 (by norm_num) (by norm_num) (by norm_num)
      rw [h2]
      norm_num]
    rw [show (2 : ℤ) = ((2 : ℕ) : ℤ) from by norm_num, zpow_natCast]
    push_cast
    norm_num
  · rw [show ⌊(22.5 : ℝ)⌋ = (22 : ℤ) from by rw [Int.floor_eq_iff]; norm_num]
    norm_num

/-- Counterexample to C5: with the valid configuration `first_cycle_steps = 10`,
`cycle_mult = 1.5`, `warmup_steps = 0`, the explicit advance to absolute step 81
produces `step_in_cycle = 34` but `cur_cycle_steps = 33.75`, violating
`step_in_cycle < cur_cycle_steps` in a started state. -/
theorem C5_counterexample :
    ((freshState 10 1.5 0.1 0.001 0 1 [0.5]).step_epoch 81).map step_in_cycle =
      some 34 ∧
    ((freshState 10 1.5 0.1 0.001 0 1 [0.5]).step_epoch 81).map cur_cycle_steps =
      some 33.75 ∧
    ¬(34 : ℝ) < 33.75 := by
  have hlog := step_epoch_log (s := freshState 10 1.5 0.1 0.001 0 1 [0.5]) (t := 81)
    (by norm_num [freshState]) (by norm_num [freshState])
    (by norm_num [freshState]) (by norm_num [freshState])
  have hargval : ((81 : ℕ) : ℝ) / ((10 : ℕ) : ℝ) * ((1.5 : ℝ) - 1) + 1 = 5.05 := by
    push_cast
    norm_num
  have hn : pyInt (Real.log (5.05 : ℝ) / Real.log (1.5 : ℝ)) = (3 : ℤ) := by
    have h3 := pyInt_log_ratio 1.5 5.05 3 (by norm_num) (by norm_num) (by norm_num)
    rw [h3]
    norm_num
  have hz3 : (1.5 : ℝ) ^ (3 : ℤ) = 3.375 := by
    rw [show (3 : ℤ) = ((3 : ℕ) : ℤ) from by norm_num, zpow_natCast]
    norm_num
  have h475 : pyInt ((47.5 : ℝ)) = 47 := by
    rw [pyInt_of_nonneg (by norm_num)]
    rw [Int.floor_eq_iff]
    norm_num
  refine ⟨?_, ?_, by norm_num⟩
  · rw [hlog, Option.map_some', apply_tail_sic]
    simp only [freshState]
    rw [hargval, hn, hz3]
    rw [show ((10 : ℕ) : ℝ) * ((3.375 : ℝ) - 1) / ((1.5 : ℝ) - 1) = 47.5 from by
      push_cast; norm_num]
    rw [h475]
    push_cast
    norm_num
  · rw [hlog, Option.map_some', apply_tail_cur]
    simp only [freshState]
    rw [hargval, hn, hz3]
    push_cast
    norm_num

/-- C9: for configurations with `cycle_mult = 0`, in every reachable state the
rate query hits no zero denominator: whenever `cycle > 0` the degenerate-cycle
guard returns `base_lrs` (the floor rates), and otherwise the cosine denominator
`cur_cycle_steps - warmup_steps` is nonzero.  Explicit advances to
`epoch ≥ first_cycle_steps` raise inside `math.log` (modelled as `none`), so no
state with a collapsed cycle length is ever reached. -/
theorem C9_no_div_zero (f w : ℕ) (maxlr minlr g : ℝ) (il : List ℝ) (hwf : w < f)
    (s : CosineAnnealingWarmupRestarts)
    (h : Reaches (freshState f 0 maxlr minlr w g il) s) :
    (0 < s.cycle → get_lr s = s.base_lrs) ∧ ¬get_lr_div_zero s := by
  have inv : s.cycle_mult = 0 ∧ s.first_cycle_steps = f ∧ s.warmup_steps = w ∧
      0 ≤ s.cycle ∧ 0 ≤ s.step_in_cycle ∧
      (s.cycle = 0 → s.cur_cycle_steps = (f : ℝ)) := by
    induction h with
    | refl => exact ⟨rfl, rfl, rfl, le_refl 0, le_refl 0, fun _ => rfl⟩
    | @stepI s' hr ih =>
      obtain ⟨m0, f0, w0, c0, sic0, cc⟩ := ih
      rcases le_or_lt s'.cur_cycle_steps (s'.step_in_cycle + 1) with hc | hc
      · obtain ⟨c1, c2, c3, -⟩ := step_impl_of_ge hc
        refine ⟨(step_impl_mult s').trans m0, (step_impl_first s').trans f0,
          (step_impl_warmup s').trans w0, ?_, ?_, ?_⟩
        · rw [c1]
          omega
        · rw [c2]
          linarith
        · intro hz
          rw [c1] at hz
          omega
      · obtain ⟨c1, c2, c3, -⟩ := step_impl_of_lt hc
        refine ⟨(step_impl_mult s').trans m0, (step_impl_first s').trans f0,
          (step_impl_warmup s').trans w0, ?_, ?_, ?_⟩
        · rw [c1]
          exact c0
        · rw [c2]
          linarith
        · intro hz
          rw [c1] at hz
          rw [c3]
          exact cc hz
    | @stepE s' s'' t hr heq ih =>
      obtain ⟨m0, f0, w0, c0, sic0, cc⟩ := ih
      rcases le_or_lt s'.first_cycle_steps t with hge | hlt
      · exfalso
        rw [step_epoch, if_pos hge, if_neg (by rw [m0]; norm_num),
          if_neg (by
            rintro ⟨-, hpos⟩
            rw [m0] at hpos
            exact lt_irrefl 0 hpos)] at heq
        exact Option.noConfusion heq
      · rw [step_epoch_small (not_le.mpr hlt)] at heq
        have heq' := Option.some.inj heq
        rw [← heq']
        refine ⟨m0, f0, w0, c0, Nat.cast_nonneg t, fun _ => ?_⟩
        rw [apply_tail_cur]
        show (s'.first_cycle_steps : ℝ) = (f : ℝ)
        rw [f0]
  obtain ⟨m0, f0, w0, c0, sic0, cc⟩ := inv
  constructor
  · intro hcyc
    unfold get_lr
    rw [if_pos (And.intro hcyc m0)]
  · rintro ⟨hguard, hne1, hcases⟩
    have hcyc0 : s.cycle = 0 := by
      rcases lt_or_eq_of_le c0 with hpos | hzero
      · exact absurd ⟨hpos, m0⟩ hguard
      · exact hzero.symm
    rcases hcases with ⟨hlt2, hwz⟩ | ⟨hge2, hden⟩
    · rw [hwz] at hlt2
      linarith
    · have hcur := cc hcyc0
      rw [hcur, w0] at hden
      have hfw : (f : ℝ) = (w : ℝ) := by linarith
      have : f = w := by exact_mod_cast hfw
      omega

/-- Witness for C9: a concrete `cycle_mult = 0` configuration at its fresh state. -/
theorem C9_no_div_zero_witness :
    1 < 3 ∧
    Reaches (freshState 3 0 0.1 0.001 1 1 [0.5])
      (freshState 3 0 0.1 0.001 1 1 [0.5]) ∧
    ((0 < (freshState 3 0 0.1 0.001 1 1 [0.5]).cycle →
      get_lr (freshState 3 0 0.1 0.001 1 1 [0.5]) =
        (freshState 3 0 0.1 0.001 1 1 [0.5]).base_lrs) ∧
    ¬get_lr_div_zero (freshState 3 0 0.1 0.001 1 1 [0.5])) :=
  ⟨by norm_num, Reaches.refl,
    C9_no_div_zero 3 1 0.1 0.001 1 [0.5] (by norm_num) _ Reaches.refl⟩

theorem get_lr_congr {s1 s2 : CosineAnnealingWarmupRestarts}
    (h1 : s1.cycle = s2.cycle) (h2 : s1.cycle_mult = s2.cycle_mult)
    (h3 : s1.step_in_cycle = s2.step_in_cycle)
    (h4 : s1.warmup_steps = s2.warmup_steps) (h5 : s1.max_lr = s2.max_lr)
    (h6 : s1.cur_cycle_steps = s2.cur_cycle_steps)
    (h7 : s1.base_lrs = s2.base_lrs) : get_lr s1 = get_lr s2 := by
  unfold get_lr
  rw [h1, h2, h3, h4, h5, h6, h7]

/-- C1 (amended): for `cycle_mult = 1`, explicit placement at absolute step `t`
and `t` implicit single steps from a fresh instance agree on `cycle`,
`step_in_cycle`, `last_epoch` and the per-group rates.  (For `cycle_mult = 2`
with positive warmup, and for `cycle_mult = 1.5`, they disagree, as the
counterexample shows.) -/
theorem C1_amended_mult_one_equiv (f w : ℕ) (maxlr minlr g : ℝ) (il : List ℝ)
    (t : ℕ) (hwf : w < f) :
    ((freshState f 1 maxlr minlr w g il).step_epoch t).map cycle =
      some ((step_impl^[t] (freshState f 1 maxlr minlr w g il)).cycle) ∧
    ((freshState f 1 maxlr minlr w g il).step_epoch t).map step_in_cycle =
      some ((step_impl^[t] (freshState f 1 maxlr minlr w g il)).step_in_cycle) ∧
    ((freshState f 1 maxlr minlr w g il).step_epoch t).map last_epoch =
      some ((step_impl^[t] (freshState f 1 maxlr minlr w g il)).last_epoch) ∧
    ((freshState f 1 maxlr minlr w g il).step_epoch t).map get_lr =
      some (get_lr (step_impl^[t] (freshState f 1 maxlr minlr w g il))) := by
  obtain ⟨ic, isic, icur, imax, ilast⟩ := iter_mult_one f w maxlr minlr g il hwf t
  obtain ⟨cf0, cm0, cb0, cmin0, cw0, cg0, cbl0⟩ :=
    iter_config (freshState f 1 maxlr minlr w g il) t
  rcases le_or_lt f t with hge | hlt
  · have hge' : (freshState f 1 maxlr minlr w g il).first_cycle_steps ≤ t := hge
    rw [step_epoch_mod hge' rfl]
    refine ⟨?_, ?_, ?_, ?_⟩
    · rw [Option.map_some', ic]
      rfl
    · rw [Option.map_some', isic]
      rfl
    · rw [Option.map_some', ilast]
      rfl
    · rw [Option.map_some']
      refine congrArg some (get_lr_congr ?_ ?_ ?_ ?_ ?_ ?_ ?_)
      · rw [ic]
        rfl
      · exact cm0.symm
      · rw [isic]
        rfl
      · exact cw0.symm
      · rw [imax]
        show maxlr * g ^ ((t / f : ℕ) : ℤ) = maxlr * g ^ (t / f : ℕ)
        rw [zpow_natCast]
      · exact icur.symm
      · exact cbl0.symm
  · have hlt' : ¬(freshState f 1 maxlr minlr w g il).first_cycle_steps ≤ t :=
      not_le.mpr hlt
    rw [step_epoch_small hlt']
    refine ⟨?_, ?_, ?_, ?_⟩
    · rw [Option.map_some', ic, Nat.div_eq_of_lt hlt]
      rfl
    · rw [Option.map_some', isic, Nat.mod_eq_of_lt hlt]
      rfl
    · rw [Option.map_some', ilast]
      rfl
    · rw [Option.map_some']
      refine congrArg some (get_lr_congr ?_ ?_ ?_ ?_ ?_ ?_ ?_)
      · rw [ic, Nat.div_eq_of_lt hlt]
        rfl
      · exact cm0.symm
      · rw [isic, Nat.mod_eq_of_lt hlt]
        rfl
      · exact cw0.symm
      · rw [imax, Nat.div_eq_of_lt hlt]
        show maxlr * g ^ ((0 : ℕ) : ℤ) = maxlr * g ^ (0 : ℕ)
        rw [zpow_natCast]
      · exact icur.symm
      · exact cbl0.symm

/-- Witness for C1 (amended) at a concrete configuration and step. -/
theorem C1_amended_mult_one_equiv_witness :
    2 < 10 ∧
    (((freshState 10 1 0.1 0.001 2 1 [0.5]).step_epoch 13).map cycle =
      some ((step_impl^[13] (freshState 10 1 0.1 0.001 2 1 [0.5])).cycle) ∧
    ((freshState 10 1 0.1 0.001 2 1 [0.5]).step_epoch 13).map step_in_cycle =
      some ((step_impl^[13] (freshState 10 1 0.1 0.001 2 1 [0.5])).step_in_cycle) ∧
    ((freshState 10 1 0.1 0.001 2 1 [0.5]).step_epoch 13).map last_epoch =
      some ((step_impl^[13] (freshState 10 1 0.1 0.001 2 1 [0.5])).last_epoch) ∧
    ((freshState 10 1 0.1 0.001 2 1 [0.5]).step_epoch 13).map get_lr =
      some (get_lr (step_impl^[13] (freshState 10 1 0.1 0.001 2 1 [0.5])))) :=
  ⟨by norm_num,
    C1_amended_mult_one_equiv 10 2 0.1 0.001 1 [0.5] 13 (by norm_num)⟩

/-- Counterexample to C1: with `first_cycle_steps = 10`, `cycle_mult = 2`,
`warmup_steps = 2`, at absolute step 28 the explicit placement reports cycle 1
while 28 implicit steps reach cycle 2 (the restart after the shortened second
cycle of length `int((10-2)*2)+2 = 18` at step 28). -/
theorem C1_counterexample :
    ((freshState 10 2 0.1 0.001 2 1 [0.5]).step_epoch 28).map cycle = some 1 ∧
    (step_impl^[28] (freshState 10 2 0.1 0.001 2 1 [0.5])).cycle = 2 ∧
    (some (1 : ℤ) : Option ℤ) ≠ some 2 := by
  refine ⟨?_, ?_, by norm_num⟩
  · rw [step_epoch_log (by norm_num [freshState]) (by norm_num [freshState])
      (by norm_num [freshState]) (by norm_num [freshState])]
    rw [Option.map_some', apply_tail_cycle]
    simp only [freshState]
    rw [show ((28 : ℕ) : ℝ) / ((10 : ℕ) : ℝ) * ((2 : ℝ) - 1) + 1 = 3.8 from by
      push_cast; norm_num]
    rw [show pyInt (Real.log (3.8 : ℝ) / Real.log (2 : ℝ)) = (1 : ℤ) from by
      have h1 := pyInt_log_ratio 2 3.8 1 (by norm_num) (by norm_num) (by norm_num)
      rw [h1]
      norm_num]
  · have hcomp : step_impl^[28] (freshState 10 2 0.1 0.001 2 1 [0.5]) =
        step_impl (step_impl^[17] (step_impl
          (step_impl^[9] (freshState 10 2 0.1 0.001 2 1 [0.5])))) := by
      rw [show (28 : ℕ) = 1 + (17 + (1 + 9)) from by norm_num]
      rw [Function.iterate_add_apply, Function.iterate_add_apply,
        Function.iterate_add_apply, Function.iterate_one]
    obtain ⟨a1, a2, a3, -⟩ :=
      iter_no_restart (freshState 10 2 0.1 0.001 2 1 [0.5]) 9
        (by show (0 : ℝ) + ((9 : ℕ) : ℝ) < ((10 : ℕ) : ℝ); norm_num)
    have hw9 : (step_impl^[9] (freshState 10 2 0.1 0.001 2 1 [0.5])).warmup_steps = 2 :=
      (iter_config (freshState 10 2 0.1 0.001 2 1 [0.5]) 9).2.2.2.2.1.trans rfl
    have hm9 : (step_impl^[9] (freshState 10 2 0.1 0.001 2 1 [0.5])).cycle_mult = 2 :=
      (iter_config (freshState 10 2 0.1 0.001 2 1 [0.5]) 9).2.1.trans rfl
    have hge9 : (step_impl^[9] (freshState 10 2 0.1 0.001 2 1 [0.5])).cur_cycle_steps ≤
        (step_impl^[9] (freshState 10 2 0.1 0.001 2 1 [0.5])).step_in_cycle + 1 := by
      rw [a2, a3]
      show ((10 : ℕ) : ℝ) ≤ (0 : ℝ) + ((9 : ℕ) : ℝ) + 1
      push_cast
      norm_num
    obtain ⟨b1, b2, b3, -⟩ := step_impl_of_ge hge9
    rw [a1] at b1
    have b2' : (step_impl (step_impl^[9]
        (freshState 10 2 0.1 0.001 2 1 [0.5]))).step_in_cycle = 0 := by
      rw [b2, a2, a3]
      simp only [freshState]
      push_cast
      norm_num
    have b3' : (step_impl (step_impl^[9]
        (freshState 10 2 0.1 0.001 2 1 [0.5]))).cur_cycle_steps = 18 := by
      rw [b3, a3, hw9, hm9]
      simp only [freshState]
      rw [show (((10 : ℕ) : ℝ) - ((2 : ℕ) : ℝ)) * 2 = ((16 : ℤ) : ℝ) from by
        push_cast; norm_num]
      rw [pyInt_intCast]
      push_cast
      norm_num
    obtain ⟨d1, d2, d3, -⟩ :=
      iter_no_restart (step_impl (step_impl^[9] (freshState 10 2 0.1 0.001 2 1 [0.5]))) 17
        (by rw [b2', b3']; push_cast; norm_num)
    have hge17 : (step_impl^[17] (step_impl (step_impl^[9]
        (freshState 10 2 0.1 0.001 2 1 [0.5])))).cur_cycle_steps ≤
        (step_impl^[17] (step_impl (step_impl^[9]
          (freshState 10 2 0.1 0.001 2 1 [0.5])))).step_in_cycle + 1 := by
      rw [d2, d3, b2', b3']
      push_cast
      norm_num
    obtain ⟨e1, -, -, -⟩ := step_impl_of_ge hge17
    rw [hcomp, e1, d1, b1]
    simp only [freshState]
    norm_num

end CosineAnnealingWarmupRestarts